import Mathlib

/-
Verification development for the film identity resolution engine of the
movienight repository (src/media_backup/film_matcher.py).

Modelling conventions used throughout:
* Python strings are Lean `String`s, processed as their `List Char` data;
  character classification (lower-casing, whitespace, word characters) is
  modelled at ASCII granularity, which agrees with Python on every input
  appearing in this development.
* Python `int` is `Int`; similarity scores (Python floats in [0, 100] that
  are ratios of integers) are `ℚ`.
* A Python value that may be `None` (or an absent dict key) is an `Option`.
* Python truthiness is modelled explicitly where the source relies on it:
  `0` and `None` are falsy for years, `None` and `""` for strings, and a
  dict is falsy exactly when it is empty.
* The two similarity primitives `fuzzy_ratio` and `token_sort_ratio`
  delegate to an external library (rapidfuzz, or difflib as fallback);
  they are taken as function parameters `fr` and `tsr` of the definitions
  that use them, mirroring the source's own library-swapping seam.
  Concrete instantiations in examples use `eqRatio`, which agrees with
  both libraries on the inputs where it is applied (identical strings
  score 100, including the pair of empty strings).
-/

namespace FilmMatcher

/-- Whitespace for Python `str.strip()` / `str.split()` (ASCII range). -/
def pySpace (c : Char) : Bool :=
  c = ' ' || c = '\t' || c = '\n' || c = '\r' || c = '\x0b' || c = '\x0c'

/-- Word characters of the regex `\b` boundary (`[a-zA-Z0-9_]` at ASCII level). -/
def isWordChar (c : Char) : Bool :=
  c.isAlpha || c.isDigit || c = '_'

/-- Python `str.strip()`: drop leading and trailing whitespace. -/
def pyStrip (s : List Char) : List Char :=
  (((s.dropWhile pySpace).reverse.dropWhile pySpace)).reverse

/-- Worker for `stripSpans`.  The second argument is `none` outside a
bracketed span and `some buf` inside one, where `buf` holds (reversed) the
characters consumed since the opening bracket; an unclosed span is emitted
unchanged, exactly as the regex leaves unmatched text alone. -/
def stripSpansGo (op cl : Char) : List Char → Option (List Char) → List Char
  | [], none => []
  | [], some buf => buf.reverse
  | c :: rest, none =>
    if c = op then stripSpansGo op cl rest (some [c])
    else c :: stripSpansGo op cl rest none
  | c :: rest, some buf =>
    if c = cl then stripSpansGo op cl rest none
    else stripSpansGo op cl rest (some (c :: buf))

/-- Model of `re.sub(r"\[[^\]]*\]", "", t)` (and the `(...)` variant):
remove every span from an opening bracket to the first closing bracket
after it, scanning left to right. -/
def stripSpans (op cl : Char) (s : List Char) : List Char :=
  stripSpansGo op cl s none

/-- Fuelled worker for `pyReplace`.  The fuel is at least the length of the
string at every call, so the `0` case is never reached from `pyReplace`. -/
def pyReplaceF (pat : List Char) : Nat → List Char → List Char
  | _, [] => []
  | 0, c :: rest => c :: rest
  | fuel + 1, c :: rest =>
    if pat.isPrefixOf (c :: rest) then
      pyReplaceF pat fuel (List.drop pat.length (c :: rest))
    else
      c :: pyReplaceF pat fuel rest

/-- Model of Python `t.replace(pat, "")`: remove all occurrences of `pat`,
scanning left to right, non-overlapping. -/
def pyReplace (pat s : List Char) : List Char :=
  pyReplaceF pat s.length s

/-- Fuelled worker for `wordSub`.  `prev` is the character immediately
before the scan position (`none` at the start of the string); for a
pattern made of word characters, the regex boundary `\b` holds exactly
when the neighbouring character is absent or not a word character. -/
def wordSubF (pat : List Char) (rep : Char) : Nat → Option Char → List Char → List Char
  | _, _, [] => []
  | 0, _, c :: rest => c :: rest
  | fuel + 1, prev, c :: rest =>
    if pat.isPrefixOf (c :: rest)
        && (match prev with | none => true | some p => !isWordChar p)
        && (match List.drop pat.length (c :: rest) with
            | [] => true
            | a :: _ => !isWordChar a)
        && !pat.isEmpty then
      rep :: wordSubF pat rep fuel (some rep) (List.drop pat.length (c :: rest))
    else
      c :: wordSubF pat rep fuel (some c) rest

/-- Model of `re.sub(rf"\b{pat}\b", rep, t)` for a pattern consisting of
word characters and a single-character replacement. -/
def wordSub (pat : List Char) (rep : Char) (s : List Char) : List Char :=
  wordSubF pat rep s.length none s

/-- Worker for `pySplitWs`; `acc` holds (reversed) the word being read. -/
def splitGo : List Char → List Char → List (List Char)
  | [], [] => []
  | [], a :: as => [(a :: as).reverse]
  | c :: rest, acc =>
    if pySpace c then
      match acc with
      | [] => splitGo rest []
      | a :: as => (a :: as).reverse :: splitGo rest []
    else
      splitGo rest (c :: acc)

/-- Model of Python `t.split()`: split on whitespace runs, no empty words. -/
def pySplitWs (s : List Char) : List (List Char) :=
  splitGo s []

/-- Model of `" ".join(words)`. -/
def joinSpaces (ws : List (List Char)) : List Char :=
  (ws.intersperse [' ']).flatten

/-- The edition suffixes removed by `normalize_title`, in source order. -/
def editionSuffixes : List (List Char) :=
  ["directors cut".data, "director\x27s cut".data, "remastered".data,
   "extended".data, "theatrical".data, "unrated".data, "special edition".data]

/-- The roman-numeral foldings of `normalize_title`, in source order. -/
def romanPairs : List (List Char × Char) :=
  [("viii".data, '8'), ("vii".data, '7'), ("vi".data, '6'), ("iv".data, '4'),
   ("iii".data, '3'), ("ii".data, '2'), ("v".data, '5'), ("i".data, '1')]

/-- The punctuation characters removed by `normalize_title`, in source order. -/
def punctChars : List Char :=
  ['.', ':', '\x27', '-', ',', '!', '?']

/-- The body of `normalize_title`, step for step:
lowercase and strip, remove `[...]` and `(...)` spans, remove edition
suffixes, strip one leading `"the "`, fold standalone roman numerals to
digits, remove punctuation, collapse whitespace. -/
def normalizeChars (s : List Char) : List Char :=
  let t0 := pyStrip (s.map Char.toLower)
  let t1 := stripSpans '[' ']' t0
  let t2 := stripSpans '(' ')' t1
  let t3 := editionSuffixes.foldl (fun acc pat => pyReplace pat acc) t2
  let t4 := if "the ".data.isPrefixOf t3 then t3.drop 4 else t3
  let t5 := romanPairs.foldl (fun acc p => wordSub p.1 p.2 acc) t4
  let t6 := punctChars.foldl (fun acc c => pyReplace [c] acc) t5
  joinSpaces (pySplitWs t6)

/-- `normalize_title` from film_matcher.py. -/
def normalize_title (s : String) : String :=
  ⟨normalizeChars s.data⟩

/-- `MATCH_THRESHOLD` from film_matcher.py. -/
def MATCH_THRESHOLD : ℚ := 85

/-- The year filter of `titles_match`: `if year1 and year2 and abs(year1 - year2) > 1`.
Python truthiness makes both `None` and `0` bypass the filter. -/
def yearGate (year1 year2 : Option Int) : Bool :=
  match year1, year2 with
  | some a, some b => decide (a ≠ 0 ∧ b ≠ 0 ∧ 1 < (a - b).natAbs)
  | _, _ => false

/-- `titles_match` from film_matcher.py, with the two similarity library
primitives `fr` (`fuzzy_ratio`) and `tsr` (`token_sort_ratio`) as
parameters.  Returns `(match, score)`. -/
def titles_match (fr tsr : String → String → ℚ) (title1 title2 : String)
    (year1 year2 : Option Int) : Bool × ℚ :=
  if yearGate year1 year2 then (false, 0)
  else
    let norm1 := normalize_title title1
    let norm2 := normalize_title title2
    let score := max (fr norm1 norm2) (tsr norm1 norm2)
    (decide (MATCH_THRESHOLD ≤ score), score)

/-- A Letterboxd catalog entry, restricted to the keys the matcher reads
(`film_slug`, `title`, `year`, `imdb_id`, `tmdb_id`); an absent key and a
key present with JSON `null` are both `none`. -/
structure Film where
  film_slug : Option String
  title : Option String
  year : Option Int
  imdb_id : Option String
  tmdb_id : Option String
deriving Repr, DecidableEq

/-- Python truthiness of a catalog entry dict: an empty dict is falsy.
The model covers dicts whose keys are among the five the matcher reads;
a dict carrying only unrelated keys is outside the model. -/
def filmTruthy (f : Film) : Bool :=
  f.film_slug.isSome || f.title.isSome || f.year.isSome ||
    f.imdb_id.isSome || f.tmdb_id.isSome

/-- A film ID cache record (the dict built by `create_cache_entry`, or an
arbitrary record loaded from film_id_cache.json). -/
structure CacheEntry where
  letterboxd_slug : Option String
  imdb_id : Option String
  tmdb_id : Option String
  match_method : Option String
  match_score : Option ℚ
  matched_at : Option String
deriving Repr, DecidableEq

/-- `create_cache_entry` from film_matcher.py; the `datetime.now()`
timestamp is the explicit argument `now`. -/
def create_cache_entry (letterboxd_slug imdb_id tmdb_id : Option String)
    (match_method : String) (match_score : ℚ) (now : String) : CacheEntry :=
  ⟨letterboxd_slug, imdb_id, tmdb_id, some match_method, some match_score, some now⟩

/-- A manual_overrides.json record (the matcher reads only `letterboxd_slug`). -/
structure OverrideEntry where
  letterboxd_slug : Option String
deriving Repr, DecidableEq

/-- The dict returned by `search_letterboxd`, restricted to the keys the
cascade reads (`slug` and `score`). -/
structure SearchResult where
  slug : String
  score : ℚ
deriving Repr, DecidableEq

/-- The external search collaborator: `search_letterboxd(session, title, year)`,
with the session and all network behaviour baked into the function. -/
def SearchFn : Type := String → Option Int → Option SearchResult

/-- Python truthiness of an optional string (`None` and `""` are falsy). -/
def truthyStr : Option String → Bool
  | none => false
  | some s => s ≠ ""

/-- A Python dict with string keys, as an association list with unique keys
looked up from the front. -/
abbrev Dict (α : Type) : Type := List (String × α)

/-- Key lookup, `d.get(k)` / `k in d`. -/
def dget {α : Type} (d : Dict α) (k : String) : Option α :=
  List.lookup k d

/-- Key assignment `d[k] = v`: replace the first binding of `k`, or append. -/
def dset {α : Type} (d : Dict α) (k : String) (v : α) : Dict α :=
  match d with
  | [] => [(k, v)]
  | (k', v') :: rest => if k' = k then (k, v) :: rest else (k', v') :: dset rest k v

/-- Step 2 of the cascade (manual override): look the asserted slug up in
the catalog to recover ids; if absent, still return the slug with null ids.
Always method `manual_override`, score 100. -/
def overrideStage (ov : OverrideEntry) (letterboxd_films : List Film)
    (now : String) : CacheEntry :=
  match letterboxd_films.find? (fun film => film.film_slug == ov.letterboxd_slug) with
  | some film =>
    create_cache_entry ov.letterboxd_slug film.imdb_id film.tmdb_id "manual_override" 100 now
  | none =>
    create_cache_entry ov.letterboxd_slug none none "manual_override" 100 now

/-- Step 3 of the cascade (embedded IMDB id): guarded by the truthiness of
`embedded_imdb`; the first catalog entry with the same `imdb_id` wins, and
a miss falls through (returns `none`). -/
def embeddedStage (letterboxd_films : List Film) (embedded_imdb : Option String)
    (now : String) : Option CacheEntry :=
  if truthyStr embedded_imdb then
    match letterboxd_films.find? (fun film => film.imdb_id == embedded_imdb) with
    | some film =>
      some (create_cache_entry film.film_slug embedded_imdb film.tmdb_id
        "embedded_metadata" 100 now)
    | none => none
  else none

/-- One iteration of the fuzzy-match loop of `get_match_for_folder`:
compare against `film.get("title", "")` and `film.get("year")`, and keep
the film when it matches with a strictly higher score than the best so far. -/
def fuzzyStep (fr tsr : String → String → ℚ) (title : String) (year : Option Int)
    (acc : Option Film × ℚ) (film : Film) : Option Film × ℚ :=
  if (titles_match fr tsr title (film.title.getD "") year film.year).1
      && decide (acc.2 < (titles_match fr tsr title (film.title.getD "") year film.year).2)
  then (some film, (titles_match fr tsr title (film.title.getD "") year film.year).2)
  else acc

/-- The fuzzy-match loop: fold over the catalog starting from
`best_match = None`, `best_score = 0.0`. -/
def fuzzyBest (fr tsr : String → String → ℚ) (title : String) (year : Option Int)
    (letterboxd_films : List Film) : Option Film × ℚ :=
  letterboxd_films.foldl (fuzzyStep fr tsr title year) (none, 0)

/-- Step 5 of the cascade (live search), `if session and title:` followed by
`search_letterboxd`; on success the method string is `"letterboxd_search"`
and the imdb/tmdb ids are left null. -/
def searchStage (session : Option SearchFn) (title : String) (year : Option Int)
    (now : String) : Option CacheEntry :=
  match session with
  | some search =>
    if title ≠ "" then
      match search title year with
      | some r => some (create_cache_entry (some r.slug) none none "letterboxd_search" r.score now)
      | none => none
    else none
  | none => none

/-- `get_match_for_folder` from film_matcher.py: the resolution cascade
cache → override → embedded id → fuzzy → search.  The fuzzy winner is
returned only when it is a truthy (non-empty) dict, mirroring
`if best_match:`. -/
def get_match_for_folder (fr tsr : String → String → ℚ) (now : String)
    (folder title : String) (year : Option Int)
    (cache : Dict CacheEntry) (overrides : Dict OverrideEntry)
    (letterboxd_films : List Film) (embedded_imdb : Option String)
    (session : Option SearchFn) : Option CacheEntry :=
  match dget cache folder with
  | some entry => some entry
  | none =>
    match dget overrides folder with
    | some ov => some (overrideStage ov letterboxd_films now)
    | none =>
      match embeddedStage letterboxd_films embedded_imdb now with
      | some e => some e
      | none =>
        match fuzzyBest fr tsr title year letterboxd_films with
        | (some best, best_score) =>
          if filmTruthy best then
            some (create_cache_entry best.film_slug best.imdb_id best.tmdb_id
              "fuzzy" best_score now)
          else searchStage session title year now
        | (none, _) => searchStage session title year now

/-- A local movie record from media_library.json, restricted to the keys
`match_local_films` reads and writes. -/
structure Movie where
  folder : Option String
  title : Option String
  year : Option Int
  imdb_id : Option String
  letterboxd_slug : Option String
  tmdb_id : Option String
  match_method : Option String
  match_score : Option ℚ
deriving Repr, DecidableEq

/-- The five assignments `movie[...] = match.get(...)` performed on a
matched movie. -/
def enrichMovie (m : Movie) (e : CacheEntry) : Movie :=
  { m with
    letterboxd_slug := e.letterboxd_slug
    imdb_id := e.imdb_id
    tmdb_id := e.tmdb_id
    match_method := e.match_method
    match_score := e.match_score }

/-- The loop of `match_local_films`: resolve each movie in order against
the shared cache, enrich and record matches, collect unmatched movies
unchanged.  Returns (enriched movies, unmatched movies, final cache). -/
def matchGo (fr tsr : String → String → ℚ) (now : String) (search : SearchFn)
    (overrides : Dict OverrideEntry) (letterboxd_films : List Film) :
    List Movie → Dict CacheEntry → List Movie × List Movie × Dict CacheEntry
  | [], cache => ([], [], cache)
  | movie :: rest, cache =>
    match get_match_for_folder fr tsr now (movie.folder.getD "") (movie.title.getD "")
        movie.year cache overrides letterboxd_films movie.imdb_id (some search) with
    | some m =>
      let r := matchGo fr tsr now search overrides letterboxd_films rest
        (dset cache (movie.folder.getD "") m)
      (enrichMovie movie m :: r.1, r.2.1, r.2.2)
    | none =>
      let r := matchGo fr tsr now search overrides letterboxd_films rest cache
      (movie :: r.1, movie :: r.2.1, r.2.2)

/-- `match_local_films` from film_matcher.py (its in-memory behaviour: the
cache is the already-loaded file contents, persistence is outside the
model; a session is always created, so the search stage always receives a
search function).  Returns (enriched local_movies, unmatched_movies). -/
def match_local_films (fr tsr : String → String → ℚ) (now : String) (search : SearchFn)
    (local_movies : List Movie) (letterboxd_films : List Film)
    (loadedCache : Dict CacheEntry) (overrides : Dict OverrideEntry)
    (force_rematch : Bool) : List Movie × List Movie :=
  let cache := if force_rematch then [] else loadedCache
  let r := matchGo fr tsr now search overrides letterboxd_films local_movies cache
  (r.1, r.2.1)

/-- `load_film_id_cache` from film_matcher.py.  The file system is
`file : Option String` (`none` when `path.exists()` is false); `parse`
models `json.loads`, returning `none` when the text is not valid JSON, in
which case `json.loads` raises `JSONDecodeError` — the source has no
`try/except`, so the exception propagates (`Except.error`). -/
def load_film_id_cache (parse : String → Option (Dict CacheEntry))
    (file : Option String) : Except String (Dict CacheEntry) :=
  match file with
  | some text =>
    match parse text with
    | some cache => .ok cache
    | none => .error "JSONDecodeError"
  | none => .ok []

/-- `load_manual_overrides` from film_matcher.py; same file and parse model
as `load_film_id_cache`. -/
def load_manual_overrides (parse : String → Option (Dict OverrideEntry))
    (file : Option String) : Except String (Dict OverrideEntry) :=
  match file with
  | some text =>
    match parse text with
    | some overrides => .ok overrides
    | none => .error "JSONDecodeError"
  | none => .ok []

/-- A concrete similarity function used to instantiate the abstract
parameters `fr`/`tsr` in closed examples: identical strings score 100,
distinct strings 0.  It agrees with both library scorers on every pair of
strings at which the examples below evaluate it (identical pairs,
including the empty pair, score 100 in rapidfuzz and difflib alike). -/
def eqRatio (a b : String) : ℚ :=
  if a = b then 100 else 0

/-- A stand-in for `json.loads` at the inputs used in closed examples:
accepts the empty JSON object, rejects anything else (as `json.loads`
rejects the text `"not json"`). -/
def parseEmptyObj {α : Type} : String → Option (Dict α) :=
  fun s => if s = "{}" then some [] else none

/-- Occurrence test matching the scan of `pyReplaceF`: does `pat` occur as
a contiguous substring of the argument? -/
def hasInfix (pat : List Char) : List Char → Bool
  | [] => pat.isEmpty
  | c :: rest => pat.isPrefixOf (c :: rest) || hasInfix pat rest

/-- Occurrence test matching the scan of `wordSubF`: does `pat` occur as a
whole word (both ends at a `\b` boundary) given the character `prev`
before the scan position? -/
def hasWordOccur (pat : List Char) : Option Char → List Char → Bool
  | _, [] => false
  | prev, c :: rest =>
    (pat.isPrefixOf (c :: rest)
        && (match prev with | none => true | some p => !isWordChar p)
        && (match List.drop pat.length (c :: rest) with
            | [] => true
            | a :: _ => !isWordChar a)
        && !pat.isEmpty)
      || hasWordOccur pat (some c) rest

/-- No two adjacent whitespace characters. -/
def noDoubleSpace : List Char → Bool
  | [] => true
  | [_] => true
  | a :: b :: rest => (!(pySpace a && pySpace b)) && noDoubleSpace (b :: rest)

/-- A syntactic description of strings on which every step of
`normalizeChars` is the identity: lowercase, whitespace already collapsed
to single interior spaces, no brackets, no edition-suffix occurrence, no
leading `"the "`, no whole-word roman numeral, no punctuation. -/
def normalFormChars (y : List Char) : Bool :=
  y.all (fun c => c.toLower == c)
    && y.all (fun c => !pySpace c || c == ' ')
    && noDoubleSpace y
    && (y.head?.all fun c => !pySpace c)
    && (y.getLast?.all fun c => !pySpace c)
    && !(y.contains '[') && !(y.contains '(')
    && editionSuffixes.all (fun pat => !hasInfix pat y)
    && !("the ".data.isPrefixOf y)
    && romanPairs.all (fun p => !hasWordOccur p.1 none y)
    && punctChars.all (fun c => !hasInfix [c] y)

/-- `normalFormChars` on a `String`. -/
def normalForm (s : String) : Bool :=
  normalFormChars s.data

/-- The score a catalog entry earns in the fuzzy loop, `none` when the
entry does not pass the threshold-and-year-gate test of `titles_match`. -/
def passScore (fr tsr : String → String → ℚ) (title : String) (year : Option Int)
    (f : Film) : Option ℚ :=
  if (titles_match fr tsr title (f.title.getD "") year f.year).1
  then some (titles_match fr tsr title (f.title.getD "") year f.year).2
  else none

/-! Identity lemmas: each normalization step fixes a string that carries no
material for it to act on. -/

theorem hasWordOccur_cons (pat : List Char) (prev : Option Char) (c : Char)
    (rest : List Char) :
    hasWordOccur pat prev (c :: rest)
      = ((pat.isPrefixOf (c :: rest)
          && (match prev with | none => true | some p => !isWordChar p)
          && (match List.drop pat.length (c :: rest) with
              | [] => true
              | a :: _ => !isWordChar a)
          && !pat.isEmpty)
        || hasWordOccur pat (some c) rest) := rfl

theorem wordSubF_succ (pat : List Char) (rep : Char) (fuel : Nat) (prev : Option Char)
    (c : Char) (rest : List Char) :
    wordSubF pat rep (fuel + 1) prev (c :: rest)
      = (if pat.isPrefixOf (c :: rest)
            && (match prev with | none => true | some p => !isWordChar p)
            && (match List.drop pat.length (c :: rest) with
                | [] => true
                | a :: _ => !isWordChar a)
            && !pat.isEmpty then
          rep :: wordSubF pat rep fuel (some rep) (List.drop pat.length (c :: rest))
        else
          c :: wordSubF pat rep fuel (some c) rest) := rfl

theorem splitGo_cons_space (c : Char) (rest acc : List Char) (hc : pySpace c = true) :
    splitGo (c :: rest) acc
      = (match acc with
         | [] => splitGo rest []
         | a :: as => (a :: as).reverse :: splitGo rest []) := by
  cases acc <;> simp only [splitGo, hc, if_true]

theorem splitGo_cons_nonspace (c : Char) (rest acc : List Char)
    (hc : pySpace c = false) :
    splitGo (c :: rest) acc = splitGo rest (c :: acc) := by
  cases acc <;> simp only [splitGo, hc, Bool.false_eq_true, if_false]

theorem map_toLower_eq_self {y : List Char} (h : ∀ c ∈ y, c.toLower = c) :
    y.map Char.toLower = y := by
  induction y with
  | nil => rfl
  | cons c t ih =>
    simp only [List.map_cons, h c (List.mem_cons_self c t),
      ih (fun d hd => h d (List.mem_cons_of_mem c hd))]

theorem dropWhile_eq_self_of_head (p : Char → Bool) (y : List Char)
    (h : ∀ c, y.head? = some c → p c = false) : y.dropWhile p = y := by
  cases y with
  | nil => rfl
  | cons c t => simp [List.dropWhile_cons, h c rfl]

theorem pyStrip_eq_self (y : List Char)
    (h1 : ∀ c, y.head? = some c → pySpace c = false)
    (h2 : ∀ c, y.getLast? = some c → pySpace c = false) : pyStrip y = y := by
  unfold pyStrip
  rw [dropWhile_eq_self_of_head _ _ h1,
    dropWhile_eq_self_of_head _ _
      (fun c hc => h2 c (by rwa [List.head?_reverse] at hc)),
    List.reverse_reverse]

theorem stripSpansGo_eq_self (op cl : Char) (y : List Char) (h : op ∉ y) :
    stripSpansGo op cl y none = y := by
  induction y with
  | nil => rfl
  | cons c t ih =>
    have hne : ¬(c = op) := fun e => h (e ▸ List.mem_cons_self c t)
    rw [stripSpansGo, if_neg hne, ih (fun hm => h (List.mem_cons_of_mem c hm))]

theorem stripSpans_eq_self (op cl : Char) (y : List Char) (h : op ∉ y) :
    stripSpans op cl y = y :=
  stripSpansGo_eq_self op cl y h

theorem pyReplaceF_eq_self (pat : List Char) :
    ∀ (fuel : Nat) (y : List Char), hasInfix pat y = false →
      pyReplaceF pat fuel y = y := by
  intro fuel
  induction fuel with
  | zero => intro y _h; cases y <;> rfl
  | succ n ih =>
    intro y h
    cases y with
    | nil => rfl
    | cons c t =>
      rw [hasInfix, Bool.or_eq_false_iff] at h
      rw [pyReplaceF, if_neg (by simp [h.1]), ih t h.2]

theorem pyReplace_eq_self (pat y : List Char) (h : hasInfix pat y = false) :
    pyReplace pat y = y :=
  pyReplaceF_eq_self pat y.length y h

theorem wordSubF_eq_self (pat : List Char) (rep : Char) :
    ∀ (fuel : Nat) (prev : Option Char) (y : List Char),
      hasWordOccur pat prev y = false → wordSubF pat rep fuel prev y = y := by
  intro fuel
  induction fuel with
  | zero => intro prev y _h; cases y <;> rfl
  | succ n ih =>
    intro prev y h
    cases y with
    | nil => rfl
    | cons c t =>
      rw [hasWordOccur_cons, Bool.or_eq_false_iff] at h
      rw [wordSubF_succ, if_neg (by simp [h.1]), ih (some c) t h.2]

theorem wordSub_eq_self (pat : List Char) (rep : Char) (y : List Char)
    (h : hasWordOccur pat none y = false) : wordSub pat rep y = y :=
  wordSubF_eq_self pat rep y.length none y h

theorem splitGo_ne_nil : ∀ (t : List Char) (a : Char) (as : List Char),
    splitGo t (a :: as) ≠ [] := by
  intro t
  induction t with
  | nil => intro a as; simp [splitGo]
  | cons c rest ih =>
    intro a as
    rw [splitGo]
    by_cases hc : pySpace c
    · simp only [hc, if_true]; simp
    · simp only [hc, if_false]; exact ih c (a :: as)

theorem joinSpaces_nil : joinSpaces [] = [] := rfl

theorem joinSpaces_single (w : List Char) : joinSpaces [w] = w := by
  simp [joinSpaces, List.intersperse]

theorem joinSpaces_cons (w x : List Char) (ws : List (List Char)) :
    joinSpaces (w :: x :: ws) = w ++ ' ' :: joinSpaces (x :: ws) := rfl

theorem joinSpaces_splitGo : ∀ (z acc : List Char),
    (∀ c ∈ z, pySpace c = true → c = ' ') →
    noDoubleSpace z = true →
    (∀ c, z.getLast? = some c → pySpace c = false) →
    (∀ c, z.head? = some c → pySpace c = true → acc ≠ []) →
    joinSpaces (splitGo z acc) = acc.reverse ++ z := by
  intro z
  induction z with
  | nil =>
    intro acc _ _ _ _
    cases acc with
    | nil => rfl
    | cons a as => simp [splitGo, joinSpaces_single]
  | cons c t ih =>
    intro acc hws hdd hlast hhead
    have hws' : ∀ d ∈ t, pySpace d = true → d = ' ' :=
      fun d hd => hws d (List.mem_cons_of_mem c hd)
    have hdd' : noDoubleSpace t = true := by
      cases t with
      | nil => rfl
      | cons d t' =>
        rw [noDoubleSpace, Bool.and_eq_true] at hdd
        exact hdd.2
    have hlast' : ∀ d, t.getLast? = some d → pySpace d = false := by
      intro d hd
      cases t with
      | nil => exact absurd hd (by simp)
      | cons e t' => exact hlast d (by rwa [List.getLast?_cons_cons])
    by_cases hc : pySpace c
    · -- a space separates the accumulated word from the rest
      have hceq : c = ' ' := hws c (List.mem_cons_self c t) hc
      obtain ⟨a, as, rfl⟩ : ∃ a as, acc = a :: as := by
        cases acc with
        | nil => exact absurd rfl (hhead c rfl hc)
        | cons a as => exact ⟨a, as, rfl⟩
      obtain ⟨d, t', rfl⟩ : ∃ d t', t = d :: t' := by
        cases t with
        | nil => exact absurd (hlast c rfl) (by simp [hc])
        | cons d t' => exact ⟨d, t', rfl⟩
      have hd : pySpace d = false := by
        rw [noDoubleSpace, Bool.and_eq_true] at hdd
        have := hdd.1
        rwa [hc, Bool.true_and, Bool.not_eq_true'] at this
      rw [splitGo_cons_space c _ _ hc]
      have hrec : joinSpaces (splitGo (d :: t') []) = d :: t' := by
        have := ih [] hws' hdd' hlast'
          (fun e he hse => absurd hse (by
            rw [List.head?_cons, Option.some.injEq] at he
            rw [he] at hd
            simp [hd]))
        simpa using this
      have hne : splitGo (d :: t') [] ≠ [] := by
        rw [splitGo_cons_nonspace d _ _ hd]
        exact splitGo_ne_nil t' d []
      obtain ⟨w, ws, hw⟩ : ∃ w ws, splitGo (d :: t') [] = w :: ws := by
        cases hsg : splitGo (d :: t') [] with
        | nil => exact absurd hsg hne
        | cons w ws => exact ⟨w, ws, rfl⟩
      rw [hw] at hrec
      rw [hw, joinSpaces_cons, hrec, hceq]
    · -- a word character is pushed onto the accumulator
      rw [splitGo_cons_nonspace c _ _ (by simpa using hc)]
      rw [ih (c :: acc) hws' hdd' hlast' (fun _ _ _ => by simp)]
      simp

/-- Strings in `normalFormChars` are fixed by the whole pipeline. -/
theorem normalizeChars_eq_self {y : List Char} (h : normalFormChars y = true) :
    normalizeChars y = y := by
  rw [normalFormChars] at h
  simp only [Bool.and_eq_true] at h
  obtain ⟨⟨⟨⟨⟨⟨⟨⟨⟨⟨h1, h2⟩, h3⟩, h4⟩, h5⟩, h6⟩, h7⟩, h8⟩, h9⟩, h10⟩, h11⟩ := h
  have hlow : ∀ c ∈ y, c.toLower = c := by
    intro c hc
    have := List.all_eq_true.mp h1 c hc
    simpa using this
  have hws : ∀ c ∈ y, pySpace c = true → c = ' ' := by
    intro c hc hsc
    have := List.all_eq_true.mp h2 c hc
    rw [hsc] at this
    simpa using this
  have hhead : ∀ c, y.head? = some c → pySpace c = false := by
    intro c hc
    rw [hc] at h4
    simpa using h4
  have hlast : ∀ c, y.getLast? = some c → pySpace c = false := by
    intro c hc
    rw [hc] at h5
    simpa using h5
  have hbr : '[' ∉ y := by
    have h6' : y.contains '[' = false := by simpa using h6
    simpa using h6'
  have hpa : '(' ∉ y := by
    have h7' : y.contains '(' = false := by simpa using h7
    simpa using h7'
  have hsuf : ∀ pat ∈ editionSuffixes, hasInfix pat y = false := by
    intro pat hp
    have := List.all_eq_true.mp h8 pat hp
    simpa using this
  have hthe : ("the ".data.isPrefixOf y) = false := by
    simpa using h9
  have hrom : ∀ (pat : List Char) (rep : Char), (pat, rep) ∈ romanPairs →
      hasWordOccur pat none y = false := by
    intro pat rep hp
    have := List.all_eq_true.mp h10 (pat, rep) hp
    simpa using this
  have hpunct : ∀ c ∈ punctChars, hasInfix [c] y = false := by
    intro c hc
    have := List.all_eq_true.mp h11 c hc
    simpa using this
  rw [normalizeChars]
  rw [map_toLower_eq_self hlow, pyStrip_eq_self y hhead hlast,
    stripSpans_eq_self _ _ _ hbr, stripSpans_eq_self _ _ _ hpa]
  rw [show editionSuffixes.foldl (fun acc pat => pyReplace pat acc) y = y by
    simp only [editionSuffixes, List.foldl_cons, List.foldl_nil]
    rw [pyReplace_eq_self _ _ (hsuf _ (by simp [editionSuffixes]))]
    rw [pyReplace_eq_self _ _ (hsuf _ (by simp [editionSuffixes]))]
    rw [pyReplace_eq_self _ _ (hsuf _ (by simp [editionSuffixes]))]
    rw [pyReplace_eq_self _ _ (hsuf _ (by simp [editionSuffixes]))]
    rw [pyReplace_eq_self _ _ (hsuf _ (by simp [editionSuffixes]))]
    rw [pyReplace_eq_self _ _ (hsuf _ (by simp [editionSuffixes]))]
    rw [pyReplace_eq_self _ _ (hsuf _ (by simp [editionSuffixes]))]]
  rw [if_neg (by simp [hthe])]
  rw [show romanPairs.foldl (fun acc p => wordSub p.1 p.2 acc) y = y by
    simp only [romanPairs, List.foldl_cons, List.foldl_nil]
    rw [wordSub_eq_self _ _ _ (hrom "viii".data '8' (by simp [romanPairs]))]
    rw [wordSub_eq_self _ _ _ (hrom "vii".data '7' (by simp [romanPairs]))]
    rw [wordSub_eq_self _ _ _ (hrom "vi".data '6' (by simp [romanPairs]))]
    rw [wordSub_eq_self _ _ _ (hrom "iv".data '4' (by simp [romanPairs]))]
    rw [wordSub_eq_self _ _ _ (hrom "iii".data '3' (by simp [romanPairs]))]
    rw [wordSub_eq_self _ _ _ (hrom "ii".data '2' (by simp [romanPairs]))]
    rw [wordSub_eq_self _ _ _ (hrom "v".data '5' (by simp [romanPairs]))]
    rw [wordSub_eq_self _ _ _ (hrom "i".data '1' (by simp [romanPairs]))]]
  rw [show punctChars.foldl (fun acc c => pyReplace [c] acc) y = y by
    simp only [punctChars, List.foldl_cons, List.foldl_nil]
    rw [pyReplace_eq_self _ _ (hpunct _ (by simp [punctChars]))]
    rw [pyReplace_eq_self _ _ (hpunct _ (by simp [punctChars]))]
    rw [pyReplace_eq_self _ _ (hpunct _ (by simp [punctChars]))]
    rw [pyReplace_eq_self _ _ (hpunct _ (by simp [punctChars]))]
    rw [pyReplace_eq_self _ _ (hpunct _ (by simp [punctChars]))]
    rw [pyReplace_eq_self _ _ (hpunct _ (by simp [punctChars]))]
    rw [pyReplace_eq_self _ _ (hpunct _ (by simp [punctChars]))]]
  rw [pySplitWs]
  rw [joinSpaces_splitGo y [] hws h3 hlast (fun c hc hsc => by
    rw [hhead c hc] at hsc
    exact absurd hsc (by simp))]
  simp

theorem normalize_title_mk (l : List Char) :
    normalize_title (String.mk l) = String.mk (normalizeChars l) := rfl

theorem string_mk_data (l : List Char) : (String.mk l).data = l := rfl

theorem normalize_title_data (s : String) :
    (normalize_title s).data = normalizeChars s.data := by
  cases s with
  | mk l => rw [normalize_title_mk, string_mk_data, string_mk_data]

/-- C5 counterexample: normalization is not idempotent.  A double
`"the "` prefix is stripped once per application, so
`normalize_title "the the b"` is `"the b"` while a second application
gives `"b"`. -/
theorem normalize_title_not_idempotent :
    normalize_title (normalize_title "the the b") ≠ normalize_title "the the b" := by
  decide

/-- C5 (amended): normalization is idempotent on every input whose first
normalization is already in normal form — lowercase, whitespace collapsed,
no brackets, no edition-suffix occurrence, no leading `"the "`, no
standalone roman-numeral word, no punctuation.  (It is not idempotent in
general: see `normalize_title_not_idempotent`.) -/
theorem normalize_title_idempotent_on_normal_forms (x : String)
    (h : normalForm (normalize_title x) = true) :
    normalize_title (normalize_title x) = normalize_title x := by
  have h' : normalFormChars ((normalize_title x).data) = true := h
  rw [normalize_title_data] at h'
  apply String.ext
  rw [normalize_title_data, normalize_title_data]
  exact normalizeChars_eq_self h'

/-- Witness for C5: `"matrix"` normalizes to a normal form, on which
normalization is idempotent. -/
theorem normalize_title_idempotent_on_normal_forms_witness :
    normalForm (normalize_title "matrix") = true ∧
      normalize_title (normalize_title "matrix") = normalize_title "matrix" :=
  ⟨by decide, normalize_title_idempotent_on_normal_forms "matrix" (by decide)⟩

/-! Equations of `titles_match`, split on the year gate. -/

theorem titles_match_gate (fr tsr : String → String → ℚ) (t1 t2 : String)
    (y1 y2 : Option Int) (h : yearGate y1 y2 = true) :
    titles_match fr tsr t1 t2 y1 y2 = (false, 0) := by
  unfold titles_match
  rw [if_pos h]

theorem titles_match_nogate (fr tsr : String → String → ℚ) (t1 t2 : String)
    (y1 y2 : Option Int) (h : yearGate y1 y2 = false) :
    titles_match fr tsr t1 t2 y1 y2
      = (decide (MATCH_THRESHOLD ≤ max (fr (normalize_title t1) (normalize_title t2))
            (tsr (normalize_title t1) (normalize_title t2))),
         max (fr (normalize_title t1) (normalize_title t2))
           (tsr (normalize_title t1) (normalize_title t2))) := by
  unfold titles_match
  rw [if_neg (by simp [h])]

theorem titles_match_fst_true {fr tsr : String → String → ℚ} {t1 t2 : String}
    {y1 y2 : Option Int} (h : (titles_match fr tsr t1 t2 y1 y2).1 = true) :
    MATCH_THRESHOLD ≤ (titles_match fr tsr t1 t2 y1 y2).2 := by
  by_cases hg : yearGate y1 y2
  · rw [titles_match_gate fr tsr t1 t2 y1 y2 hg] at h
    exact absurd h (by simp)
  · rw [titles_match_nogate fr tsr t1 t2 y1 y2 (by simpa using hg)] at h ⊢
    simpa using h

/-- C3 counterexample: a year equal to `0` is falsy in Python, so the year
filter is skipped even though both years are known (non-null) and differ
by more than 1; with identical titles the result is a match with score
100, not `(false, 0.0)`. -/
theorem titles_match_zero_year_counterexample :
    titles_match eqRatio eqRatio "x" "x" (some 0) (some 5) = (true, 100) := by
  decide

/-- C3 (amended): for known *nonzero* years differing by more than 1,
`titles_match` returns `(false, 0.0)` regardless of the titles; whenever
the year gate does not fire the result is exactly
`(score ≥ 85, score)` for `score` the maximum of the two similarity
measures on the normalized titles; and the year gate is symmetric in its
two year arguments. -/
theorem titles_match_year_gate_spec :
    (∀ (fr tsr : String → String → ℚ) (t1 t2 : String) (a b : Int),
      a ≠ 0 → b ≠ 0 → 1 < (a - b).natAbs →
      titles_match fr tsr t1 t2 (some a) (some b) = (false, 0)) ∧
    (∀ (fr tsr : String → String → ℚ) (t1 t2 : String) (y1 y2 : Option Int),
      yearGate y1 y2 = false →
      titles_match fr tsr t1 t2 y1 y2
        = (decide (MATCH_THRESHOLD ≤ max (fr (normalize_title t1) (normalize_title t2))
              (tsr (normalize_title t1) (normalize_title t2))),
           max (fr (normalize_title t1) (normalize_title t2))
             (tsr (normalize_title t1) (normalize_title t2)))) ∧
    (∀ y1 y2 : Option Int, yearGate y1 y2 = yearGate y2 y1) := by
  refine ⟨?_, ?_, ?_⟩
  · intro fr tsr t1 t2 a b ha hb hab
    exact titles_match_gate fr tsr t1 t2 (some a) (some b)
      (by simp [yearGate, ha, hb, hab])
  · intro fr tsr t1 t2 y1 y2 h
    exact titles_match_nogate fr tsr t1 t2 y1 y2 h
  · intro y1 y2
    cases y1 with
    | none => cases y2 <;> rfl
    | some a =>
      cases y2 with
      | none => rfl
      | some b =>
        simp only [yearGate]
        exact decide_eq_decide.mpr
          (by rw [show a - b = -(b - a) by ring, Int.natAbs_neg]; tauto)

/-- Witness for C3: concrete nonzero years three apart force `(false, 0)`. -/
theorem titles_match_year_gate_spec_witness :
    titles_match eqRatio eqRatio "a" "b" (some 2020) (some 2023) = (false, 0) :=
  titles_match_year_gate_spec.1 eqRatio eqRatio "a" "b" 2020 2023
    (by decide) (by decide) (by decide)

/-- C10: a year equal to 0 behaves exactly like an unknown (`None`) year:
the gate is bypassed and the result is the pure text-score result, even
when the other year is arbitrary. -/
theorem titles_match_zero_year_as_unknown
    (fr tsr : String → String → ℚ) (t1 t2 : String) (y : Option Int) :
    titles_match fr tsr t1 t2 (some 0) y = titles_match fr tsr t1 t2 none y ∧
    titles_match fr tsr t1 t2 y (some 0) = titles_match fr tsr t1 t2 y none ∧
    titles_match fr tsr t1 t2 (some 0) y
      = (decide (MATCH_THRESHOLD ≤ max (fr (normalize_title t1) (normalize_title t2))
            (tsr (normalize_title t1) (normalize_title t2))),
         max (fr (normalize_title t1) (normalize_title t2))
           (tsr (normalize_title t1) (normalize_title t2))) := by
  have g1 : yearGate (some 0) y = false := by cases y <;> simp [yearGate]
  have g2 : yearGate y (some 0) = false := by cases y <;> simp [yearGate]
  have g3 : yearGate none y = false := by cases y <;> rfl
  have g4 : yearGate y none = false := by cases y <;> rfl
  refine ⟨?_, ?_, ?_⟩
  · rw [titles_match_nogate fr tsr t1 t2 _ _ g1, titles_match_nogate fr tsr t1 t2 _ _ g3]
  · rw [titles_match_nogate fr tsr t1 t2 _ _ g2, titles_match_nogate fr tsr t1 t2 _ _ g4]
  · exact titles_match_nogate fr tsr t1 t2 _ _ g1

/-- C1: a folder key present in the cache resolves to the stored record
unchanged (match score and method preserved), for every override set,
catalog, embedded id and search function — the later stages are never
consulted. -/
theorem cache_hit_returns_stored_record
    (fr tsr : String → String → ℚ) (now folder title : String) (year : Option Int)
    (cache : Dict CacheEntry) (overrides : Dict OverrideEntry)
    (letterboxd_films : List Film) (embedded_imdb : Option String)
    (session : Option SearchFn) (entry : CacheEntry)
    (h : dget cache folder = some entry) :
    get_match_for_folder fr tsr now folder title year cache overrides
      letterboxd_films embedded_imdb session = some entry := by
  unfold get_match_for_folder
  rw [h]

/-- Witness for C1: the folder is present in both the cache and the
overrides, and the stored cache record wins, untouched. -/
theorem cache_hit_returns_stored_record_witness :
    get_match_for_folder eqRatio eqRatio "t0" "folder-a" "Title" none
      [("folder-a", ⟨some "slug-a", some "tt1", none, some "fuzzy", some 95, some "t-1"⟩)]
      [("folder-a", ⟨some "other-slug"⟩)] [] none none
      = some ⟨some "slug-a", some "tt1", none, some "fuzzy", some 95, some "t-1"⟩ :=
  cache_hit_returns_stored_record eqRatio eqRatio "t0" "folder-a" "Title" none
    [("folder-a", ⟨some "slug-a", some "tt1", none, some "fuzzy", some 95, some "t-1"⟩)]
    [("folder-a", ⟨some "other-slug"⟩)] [] none none
    ⟨some "slug-a", some "tt1", none, some "fuzzy", some 95, some "t-1"⟩ (by decide)

/-- C6: with no cache entry and an override present, resolution returns the
override record: the first catalog entry whose `film_slug` equals the
asserted slug contributes its imdb/tmdb ids, a slug absent from the
catalog yields null ids, and in both cases the method is
`manual_override` with score 100. -/
theorem override_resolution_spec
    (fr tsr : String → String → ℚ) (now folder title : String) (year : Option Int)
    (cache : Dict CacheEntry) (overrides : Dict OverrideEntry)
    (letterboxd_films : List Film) (embedded_imdb : Option String)
    (session : Option SearchFn) (ov : OverrideEntry)
    (hc : dget cache folder = none) (ho : dget overrides folder = some ov) :
    get_match_for_folder fr tsr now folder title year cache overrides
        letterboxd_films embedded_imdb session
      = some (overrideStage ov letterboxd_films now) ∧
    (∀ film : Film,
      letterboxd_films.find? (fun f => f.film_slug == ov.letterboxd_slug) = some film →
      overrideStage ov letterboxd_films now
        = ⟨ov.letterboxd_slug, film.imdb_id, film.tmdb_id, some "manual_override",
           some 100, some now⟩) ∧
    (letterboxd_films.find? (fun f => f.film_slug == ov.letterboxd_slug) = none →
      overrideStage ov letterboxd_films now
        = ⟨ov.letterboxd_slug, none, none, some "manual_override", some 100, some now⟩) := by
  refine ⟨?_, ?_, ?_⟩
  · unfold get_match_for_folder
    rw [hc, ho]
  · intro film hf
    unfold overrideStage
    rw [hf]
    rfl
  · intro hf
    unfold overrideStage
    rw [hf]
    rfl

/-- Witness for C6: an override slug found in the catalog recovers that
entry's ids at score 100. -/
theorem override_resolution_spec_witness :
    get_match_for_folder eqRatio eqRatio "t0" "f1" "T" none []
        [("f1", ⟨some "slugg"⟩)]
        [⟨some "slugg", some "Title", some 2000, some "tt9", some "tm9"⟩] none none
      = some (overrideStage ⟨some "slugg"⟩
          [⟨some "slugg", some "Title", some 2000, some "tt9", some "tm9"⟩] "t0") :=
  (override_resolution_spec eqRatio eqRatio "t0" "f1" "T" none []
    [("f1", ⟨some "slugg"⟩)]
    [⟨some "slugg", some "Title", some 2000, some "tt9", some "tm9"⟩] none none
    ⟨some "slugg"⟩ (by decide) (by decide)).1

/-- C7 counterexample: a cache file whose contents do not parse makes
`load_film_id_cache` raise (`json.loads` propagates), rather than yield
the empty mapping. -/
theorem load_film_id_cache_parse_failure :
    load_film_id_cache (parseEmptyObj : String → Option (Dict CacheEntry))
        (some "not json") = Except.error "JSONDecodeError" ∧
    load_film_id_cache (parseEmptyObj : String → Option (Dict CacheEntry))
        (some "not json") ≠ Except.ok [] := by
  have h1 : load_film_id_cache (parseEmptyObj : String → Option (Dict CacheEntry))
      (some "not json") = Except.error "JSONDecodeError" := rfl
  exact ⟨h1, by rw [h1]; exact fun h => Except.noConfusion h⟩

/-- C7 (amended): a missing cache/override file yields the empty mapping,
but contents that fail to parse raise `JSONDecodeError` (there is no
`try/except` around `json.loads`), for both `load_film_id_cache` and
`load_manual_overrides`. -/
theorem load_functions_spec :
    (∀ parse : String → Option (Dict CacheEntry),
      load_film_id_cache parse none = Except.ok []) ∧
    (∀ parse : String → Option (Dict OverrideEntry),
      load_manual_overrides parse none = Except.ok []) ∧
    (∀ (parse : String → Option (Dict CacheEntry)) (text : String), parse text = none →
      load_film_id_cache parse (some text) = Except.error "JSONDecodeError") ∧
    (∀ (parse : String → Option (Dict OverrideEntry)) (text : String), parse text = none →
      load_manual_overrides parse (some text) = Except.error "JSONDecodeError") := by
  refine ⟨fun _ => rfl, fun _ => rfl, ?_, ?_⟩
  · intro parse text h
    simp only [load_film_id_cache, h]
  · intro parse text h
    simp only [load_manual_overrides, h]

/-- Witness for C7: the stand-in parser rejects `"not json"`, and both
loaders turn that into a propagated error, while a missing file loads as
the empty mapping. -/
theorem load_functions_spec_witness :
    load_film_id_cache (parseEmptyObj : String → Option (Dict CacheEntry)) none
        = Except.ok [] ∧
    load_manual_overrides (parseEmptyObj : String → Option (Dict OverrideEntry))
        (some "not json") = Except.error "JSONDecodeError" :=
  ⟨load_functions_spec.1 parseEmptyObj,
   load_functions_spec.2.2.2 parseEmptyObj "not json" (by decide)⟩

/-! The fuzzy loop: a passing entry always scores at least the threshold,
and the fold keeps the first strictly-highest passing entry. -/

theorem passScore_some {fr tsr : String → String → ℚ} {title : String}
    {year : Option Int} {f : Film} {s : ℚ}
    (h : passScore fr tsr title year f = some s) :
    (titles_match fr tsr title (f.title.getD "") year f.year).1 = true ∧
    (titles_match fr tsr title (f.title.getD "") year f.year).2 = s ∧
    MATCH_THRESHOLD ≤ s := by
  unfold passScore at h
  by_cases hb : (titles_match fr tsr title (f.title.getD "") year f.year).1
  · rw [if_pos hb] at h
    have h2 : (titles_match fr tsr title (f.title.getD "") year f.year).2 = s :=
      Option.some.inj h
    exact ⟨hb, h2, h2 ▸ titles_match_fst_true hb⟩
  · rw [if_neg hb] at h
    exact absurd h (by simp)

theorem passScore_none {fr tsr : String → String → ℚ} {title : String}
    {year : Option Int} {f : Film}
    (h : passScore fr tsr title year f = none) :
    (titles_match fr tsr title (f.title.getD "") year f.year).1 = false := by
  unfold passScore at h
  by_cases hb : (titles_match fr tsr title (f.title.getD "") year f.year).1
  · rw [if_pos hb] at h
    exact absurd h (by simp)
  · rwa [Bool.not_eq_true] at hb

theorem fuzzyStep_of_fail {fr tsr : String → String → ℚ} {title : String}
    {year : Option Int} {acc : Option Film × ℚ} {f : Film}
    (h : passScore fr tsr title year f = none) :
    fuzzyStep fr tsr title year acc f = acc := by
  unfold fuzzyStep
  rw [passScore_none h]
  simp

theorem fuzzyStep_of_pass_high {fr tsr : String → String → ℚ} {title : String}
    {year : Option Int} {acc : Option Film × ℚ} {f : Film} {s : ℚ}
    (h : passScore fr tsr title year f = some s) (hlt : acc.2 < s) :
    fuzzyStep fr tsr title year acc f = (some f, s) := by
  obtain ⟨h1, h2, _⟩ := passScore_some h
  unfold fuzzyStep
  rw [h1, h2, if_pos (by simp [hlt])]

theorem fuzzyStep_of_pass_low {fr tsr : String → String → ℚ} {title : String}
    {year : Option Int} {acc : Option Film × ℚ} {f : Film} {s : ℚ}
    (h : passScore fr tsr title year f = some s) (hge : ¬ acc.2 < s) :
    fuzzyStep fr tsr title year acc f = acc := by
  obtain ⟨h1, h2, _⟩ := passScore_some h
  unfold fuzzyStep
  rw [h1, h2, if_neg (by simp [hge])]

theorem foldl_fuzzyStep_spec (fr tsr : String → String → ℚ) (title : String)
    (year : Option Int) :
    ∀ (films : List Film) (acc : Option Film × ℚ),
      (List.foldl (fuzzyStep fr tsr title year) acc films = acc ∧
        ∀ f ∈ films, ∀ t, passScore fr tsr title year f = some t → t ≤ acc.2) ∨
      (∃ i : Fin films.length,
        (List.foldl (fuzzyStep fr tsr title year) acc films).1 = some (films.get i) ∧
        passScore fr tsr title year (films.get i)
          = some (List.foldl (fuzzyStep fr tsr title year) acc films).2 ∧
        acc.2 < (List.foldl (fuzzyStep fr tsr title year) acc films).2 ∧
        (∀ j : Fin films.length, ∀ t,
          passScore fr tsr title year (films.get j) = some t →
          t ≤ (List.foldl (fuzzyStep fr tsr title year) acc films).2) ∧
        (∀ j : Fin films.length, j.1 < i.1 → ∀ t,
          passScore fr tsr title year (films.get j) = some t →
          t < (List.foldl (fuzzyStep fr tsr title year) acc films).2)) := by
  intro films
  induction films with
  | nil =>
    intro acc
    left
    exact ⟨rfl, by simp⟩
  | cons f rest ih =>
    intro acc
    have hget0 : ∀ h : 0 < (f :: rest).length, (f :: rest).get ⟨0, h⟩ = f :=
      fun _ => rfl
    have hgetS : ∀ (k : Nat) (h : k + 1 < (f :: rest).length),
        (f :: rest).get ⟨k + 1, h⟩ = rest.get ⟨k, Nat.lt_of_succ_lt_succ h⟩ :=
      fun _ _ => rfl
    rw [List.foldl_cons]
    cases hp : passScore fr tsr title year f with
    | none =>
      rw [fuzzyStep_of_fail hp]
      rcases ih acc with ⟨heq, hbound⟩ | ⟨i, h1, h2, h3, h4, h5⟩
      · left
        refine ⟨heq, ?_⟩
        intro g hg t' hg'
        rcases List.mem_cons.mp hg with rfl | hgr
        · rw [hp] at hg'
          exact absurd hg' (by simp)
        · exact hbound g hgr t' hg'
      · right
        refine ⟨⟨i.1 + 1, Nat.succ_lt_succ i.2⟩, ?_, ?_, ?_, ?_, ?_⟩
        · rw [h1, hgetS]
        · rw [hgetS]
          exact h2
        · exact h3
        · intro j t' hj'
          rcases j with ⟨jv, hj⟩
          cases jv with
          | zero =>
            rw [hget0] at hj'
            rw [hp] at hj'
            exact absurd hj' (by simp)
          | succ k =>
            rw [hgetS] at hj'
            exact h4 ⟨k, Nat.lt_of_succ_lt_succ hj⟩ t' hj'
        · intro j hji t' hj'
          rcases j with ⟨jv, hj⟩
          cases jv with
          | zero =>
            rw [hget0] at hj'
            rw [hp] at hj'
            exact absurd hj' (by simp)
          | succ k =>
            rw [hgetS] at hj'
            exact h5 ⟨k, Nat.lt_of_succ_lt_succ hj⟩ (Nat.lt_of_succ_lt_succ hji) t' hj'
    | some t =>
      by_cases hlt : acc.2 < t
      · rw [fuzzyStep_of_pass_high hp hlt]
        rcases ih (some f, t) with ⟨heq, hbound⟩ | ⟨i, h1, h2, h3, h4, h5⟩
        · right
          refine ⟨⟨0, Nat.succ_pos _⟩, ?_, ?_, ?_, ?_, ?_⟩
          · rw [heq, hget0]
          · rw [heq, hget0]
            exact hp
          · rw [heq]
            exact hlt
          · intro j t' hj'
            rw [heq]
            rcases j with ⟨jv, hj⟩
            cases jv with
            | zero =>
              rw [hget0] at hj'
              rw [hp] at hj'
              exact le_of_eq (Option.some.inj hj'.symm)
            | succ k =>
              rw [hgetS] at hj'
              exact hbound _ (List.get_mem rest _ _) t' hj'
          · intro j hji t' hj'
            exact absurd hji (Nat.not_lt_zero _)
        · right
          refine ⟨⟨i.1 + 1, Nat.succ_lt_succ i.2⟩, ?_, ?_, ?_, ?_, ?_⟩
          · rw [h1, hgetS]
          · rw [hgetS]
            exact h2
          · exact lt_trans hlt h3
          · intro j t' hj'
            rcases j with ⟨jv, hj⟩
            cases jv with
            | zero =>
              rw [hget0] at hj'
              rw [hp] at hj'
              have ht' : t' = t := Option.some.inj hj'.symm
              exact le_of_lt (ht' ▸ h3)
            | succ k =>
              rw [hgetS] at hj'
              exact h4 ⟨k, Nat.lt_of_succ_lt_succ hj⟩ t' hj'
          · intro j hji t' hj'
            rcases j with ⟨jv, hj⟩
            cases jv with
            | zero =>
              rw [hget0] at hj'
              rw [hp] at hj'
              have ht' : t' = t := Option.some.inj hj'.symm
              exact ht' ▸ h3
            | succ k =>
              rw [hgetS] at hj'
              exact h5 ⟨k, Nat.lt_of_succ_lt_succ hj⟩ (Nat.lt_of_succ_lt_succ hji) t' hj'
      · rw [fuzzyStep_of_pass_low hp hlt]
        rcases ih acc with ⟨heq, hbound⟩ | ⟨i, h1, h2, h3, h4, h5⟩
        · left
          refine ⟨heq, ?_⟩
          intro g hg t' hg'
          rcases List.mem_cons.mp hg with rfl | hgr
          · rw [hp] at hg'
            have ht' : t' = t := Option.some.inj hg'.symm
            exact ht' ▸ le_of_not_lt hlt
          · exact hbound g hgr t' hg'
        · right
          refine ⟨⟨i.1 + 1, Nat.succ_lt_succ i.2⟩, ?_, ?_, ?_, ?_, ?_⟩
          · rw [h1, hgetS]
          · rw [hgetS]
            exact h2
          · exact h3
          · intro j t' hj'
            rcases j with ⟨jv, hj⟩
            cases jv with
            | zero =>
              rw [hget0] at hj'
              rw [hp] at hj'
              have ht' : t' = t := Option.some.inj hj'.symm
              exact le_of_lt (lt_of_le_of_lt (ht' ▸ le_of_not_lt hlt) h3)
            | succ k =>
              rw [hgetS] at hj'
              exact h4 ⟨k, Nat.lt_of_succ_lt_succ hj⟩ t' hj'
          · intro j hji t' hj'
            rcases j with ⟨jv, hj⟩
            cases jv with
            | zero =>
              rw [hget0] at hj'
              rw [hp] at hj'
              have ht' : t' = t := Option.some.inj hj'.symm
              exact lt_of_le_of_lt (ht' ▸ le_of_not_lt hlt) h3
            | succ k =>
              rw [hgetS] at hj'
              exact h5 ⟨k, Nat.lt_of_succ_lt_succ hj⟩ (Nat.lt_of_succ_lt_succ hji) t' hj'

theorem fuzzyBest_some_spec (fr tsr : String → String → ℚ) (title : String)
    (year : Option Int) (films : List Film) (f : Film) (s : ℚ)
    (h : fuzzyBest fr tsr title year films = (some f, s)) :
    MATCH_THRESHOLD ≤ s ∧
    ∃ i : Fin films.length, films.get i = f ∧
      passScore fr tsr title year f = some s ∧
      (∀ j : Fin films.length, ∀ t,
        passScore fr tsr title year (films.get j) = some t → t ≤ s) ∧
      (∀ j : Fin films.length, j.1 < i.1 → ∀ t,
        passScore fr tsr title year (films.get j) = some t → t < s) := by
  unfold fuzzyBest at h
  rcases foldl_fuzzyStep_spec fr tsr title year films (none, 0) with
    ⟨heq, _⟩ | ⟨i, h1, h2, _h3, h4, h5⟩
  · rw [heq] at h
    exact absurd h (by simp)
  · rw [h] at h1 h2 h4 h5
    have h1' : some f = some (films.get i) := h1
    have hif : films.get i = f := (Option.some.inj h1').symm
    have h2' : passScore fr tsr title year (films.get i) = some s := h2
    rw [hif] at h2'
    exact ⟨(passScore_some h2').2.2, i, hif, h2', h4, h5⟩

theorem fuzzyBest_none_spec (fr tsr : String → String → ℚ) (title : String)
    (year : Option Int) (films : List Film) (s : ℚ)
    (h : fuzzyBest fr tsr title year films = (none, s)) :
    ∀ f ∈ films, passScore fr tsr title year f = none := by
  unfold fuzzyBest at h
  rcases foldl_fuzzyStep_spec fr tsr title year films (none, 0) with
    ⟨_heq, hbound⟩ | ⟨i, h1, _, _, _, _⟩
  · intro f hf
    cases hps : passScore fr tsr title year f with
    | none => rfl
    | some t =>
      have hle : t ≤ (0 : ℚ) := hbound f hf t hps
      have h85 : MATCH_THRESHOLD ≤ t := (passScore_some hps).2.2
      rw [MATCH_THRESHOLD] at h85
      linarith
  · intro f hf
    rw [h] at h1
    exact absurd (h1 : (none : Option Film) = some _) (by simp)

theorem fuzzyBest_of_all_fail (fr tsr : String → String → ℚ) (title : String)
    (year : Option Int) (films : List Film)
    (h : ∀ f ∈ films, passScore fr tsr title year f = none) :
    fuzzyBest fr tsr title year films = (none, 0) := by
  unfold fuzzyBest
  suffices H : ∀ (l : List Film) (acc : Option Film × ℚ),
      (∀ f ∈ l, passScore fr tsr title year f = none) →
      List.foldl (fuzzyStep fr tsr title year) acc l = acc from
    H films (none, 0) h
  intro l
  induction l with
  | nil => intro acc _; rfl
  | cons g rest ih =>
    intro acc hh
    rw [List.foldl_cons, fuzzyStep_of_fail (hh g (List.mem_cons_self g rest)),
      ih acc (fun f hf => hh f (List.mem_cons_of_mem g hf))]

/-- C2 counterexample: in the fuzzy stage an entry that is the *empty*
dict can pass the threshold (an item whose title normalizes to the empty
string scores 100 against the entry's defaulted empty title), yet
`if best_match:` is false on an empty dict, so the stage — and with no
search session the whole cascade — yields no match instead of a record
built from the winning entry. -/
theorem fuzzy_stage_empty_dict_counterexample :
    passScore eqRatio eqRatio "" none (Film.mk none none none none none) = some 100 ∧
    get_match_for_folder eqRatio eqRatio "t0" "folder-e" "" none [] []
        [Film.mk none none none none none] none none = none :=
  ⟨by decide, by decide⟩

/-- C2 (amended): with cache, overrides and embedded stage all missing,
the fuzzy stage returns the record built from the first-seen catalog entry
with the strictly highest passing score — method `fuzzy`, score the
winning score (≥ 85) — *provided* that winner is a truthy (non-empty)
dict; and if no entry passes, the stage contributes nothing and the
cascade falls through to the search stage. -/
theorem fuzzy_stage_spec
    (fr tsr : String → String → ℚ) (now folder title : String) (year : Option Int)
    (cache : Dict CacheEntry) (overrides : Dict OverrideEntry)
    (letterboxd_films : List Film) (embedded_imdb : Option String)
    (session : Option SearchFn)
    (hc : dget cache folder = none) (ho : dget overrides folder = none)
    (he : embeddedStage letterboxd_films embedded_imdb now = none) :
    (∀ (f : Film) (s : ℚ),
      fuzzyBest fr tsr title year letterboxd_films = (some f, s) →
      filmTruthy f = true →
      get_match_for_folder fr tsr now folder title year cache overrides
          letterboxd_films embedded_imdb session
        = some (create_cache_entry f.film_slug f.imdb_id f.tmdb_id "fuzzy" s now) ∧
      MATCH_THRESHOLD ≤ s ∧
      (∃ i : Fin letterboxd_films.length,
        letterboxd_films.get i = f ∧
        passScore fr tsr title year f = some s ∧
        (∀ j : Fin letterboxd_films.length, ∀ t,
          passScore fr tsr title year (letterboxd_films.get j) = some t → t ≤ s) ∧
        (∀ j : Fin letterboxd_films.length, j.1 < i.1 → ∀ t,
          passScore fr tsr title year (letterboxd_films.get j) = some t → t < s))) ∧
    ((∀ f ∈ letterboxd_films, passScore fr tsr title year f = none) →
      get_match_for_folder fr tsr now folder title year cache overrides
          letterboxd_films embedded_imdb session
        = searchStage session title year now) := by
  constructor
  · intro f s hfb htr
    have hspec := fuzzyBest_some_spec fr tsr title year letterboxd_films f s hfb
    refine ⟨?_, hspec.1, hspec.2⟩
    have hstep : get_match_for_folder fr tsr now folder title year cache overrides
        letterboxd_films embedded_imdb session
        = if filmTruthy f then
            some (create_cache_entry f.film_slug f.imdb_id f.tmdb_id "fuzzy" s now)
          else searchStage session title year now := by
      unfold get_match_for_folder
      rw [hc, ho, he, hfb]
    rw [hstep, if_pos htr]
  · intro hall
    have hstep : get_match_for_folder fr tsr now folder title year cache overrides
        letterboxd_films embedded_imdb session = searchStage session title year now := by
      unfold get_match_for_folder
      rw [hc, ho, he, fuzzyBest_of_all_fail fr tsr title year letterboxd_films hall]
    exact hstep

/-- Witness for C2: the spec's concrete scenario — `Inception (2010)`
against a one-entry catalog resolves by fuzzy match at score 100. -/
theorem fuzzy_stage_spec_witness :
    get_match_for_folder eqRatio eqRatio "t0" "Inception.2010.1080p" "Inception" (some 2010)
        [] [] [⟨some "inception", some "Inception", some 2010, some "tt1375666", none⟩]
        none none
      = some (create_cache_entry (some "inception") (some "tt1375666") none "fuzzy" 100 "t0") :=
  ((fuzzy_stage_spec eqRatio eqRatio "t0" "Inception.2010.1080p" "Inception" (some 2010)
      [] [] [⟨some "inception", some "Inception", some 2010, some "tt1375666", none⟩]
      none none rfl rfl rfl).1
    ⟨some "inception", some "Inception", some 2010, some "tt1375666", none⟩ 100
    (by decide) (by decide)).1

/-- C4 counterexample: a successful live search stores the method string
`"letterboxd_search"`, which is not the spec's enum value
`"external_search"`. -/
theorem search_stage_method_counterexample :
    get_match_for_folder eqRatio eqRatio "t0" "folder-b" "Some Film" none [] [] [] none
        (some (fun _ _ => some ⟨"slug-b", 90⟩))
      = some ⟨some "slug-b", none, none, some "letterboxd_search", some 90, some "t0"⟩ ∧
    "letterboxd_search" ≠ "external_search" :=
  ⟨by decide, by decide⟩

/-- C4 (amended): whenever resolution succeeds via the search stage (all
earlier stages missed, a search function is supplied, the title is
truthy and the search returns a result), the record carries the
provider's score and null imdb/tmdb ids, but its method string is
`letterboxd_search` (not `external_search`). -/
theorem search_stage_resolution_spec
    (fr tsr : String → String → ℚ) (now folder title : String) (year : Option Int)
    (cache : Dict CacheEntry) (overrides : Dict OverrideEntry)
    (letterboxd_films : List Film) (embedded_imdb : Option String)
    (search : SearchFn) (r : SearchResult)
    (hc : dget cache folder = none) (ho : dget overrides folder = none)
    (he : embeddedStage letterboxd_films embedded_imdb now = none)
    (hf : ∀ f ∈ letterboxd_films, passScore fr tsr title year f = none)
    (ht : title ≠ "") (hs : search title year = some r) :
    get_match_for_folder fr tsr now folder title year cache overrides
        letterboxd_films embedded_imdb (some search)
      = some ⟨some r.slug, none, none, some "letterboxd_search", some r.score, some now⟩ := by
  have h1 : get_match_for_folder fr tsr now folder title year cache overrides
      letterboxd_films embedded_imdb (some search)
      = searchStage (some search) title year now := by
    unfold get_match_for_folder
    rw [hc, ho, he, fuzzyBest_of_all_fail fr tsr title year letterboxd_films hf]
  have h2 : searchStage (some search) title year now
      = if title ≠ "" then
          (match search title year with
           | some r' => some (create_cache_entry (some r'.slug) none none
               "letterboxd_search" r'.score now)
           | none => none)
        else none := rfl
  rw [h1, h2, if_pos ht, hs]
  rfl

/-- Witness for C4: an empty catalog and a search function returning a
concrete hit produce the `letterboxd_search` record. -/
theorem search_stage_resolution_spec_witness :
    get_match_for_folder eqRatio eqRatio "t1" "folder-c" "Night Film" none [] [] [] none
        (some (fun _ _ => some ⟨"night-film", 75⟩))
      = some ⟨some "night-film", none, none, some "letterboxd_search", some 75, some "t1"⟩ :=
  search_stage_resolution_spec eqRatio eqRatio "t1" "folder-c" "Night Film" none [] [] []
    none (fun _ _ => some ⟨"night-film", 75⟩) ⟨"night-film", 75⟩ rfl rfl rfl
    (fun f hf => absurd hf (List.not_mem_nil f)) (by decide) rfl

/-- C8 counterexample: a catalog entry with no title is not skipped — it is
compared with the defaulted empty title, and when the item's own title
normalizes to the empty string it is selected as the fuzzy winner with
score 100. -/
theorem titleless_entry_selected_counterexample :
    (Film.mk (some "slug-x") none none none none).title = none ∧
    get_match_for_folder eqRatio eqRatio "t0" "folder-d" "" none [] []
        [Film.mk (some "slug-x") none none none none] none none
      = some ⟨some "slug-x", none, none, some "fuzzy", some 100, some "t0"⟩ :=
  ⟨rfl, by decide⟩

/-- C8 (amended): a catalog entry missing its title never makes the fuzzy
stage raise — it participates in the comparison exactly as if its title
were the empty string (`film.get("title", "")`) — but it is *not*
unconditionally excluded from winning: when the item's normalized title is
empty such an entry can be selected (score 100), as the second conjunct
shows on a concrete input. -/
theorem titleless_entry_compared_as_empty :
    (∀ (fr tsr : String → String → ℚ) (title : String) (year : Option Int) (film : Film),
      film.title = none →
      passScore fr tsr title year film
        = passScore fr tsr title year
            ⟨film.film_slug, some "", film.year, film.imdb_id, film.tmdb_id⟩) ∧
    get_match_for_folder eqRatio eqRatio "t0" "folder-f" "()" none [] []
        [Film.mk (some "slug-y") none none none none] none none
      = some ⟨some "slug-y", none, none, some "fuzzy", some 100, some "t0"⟩ := by
  constructor
  · intro fr tsr title year film h
    unfold passScore
    rw [h]
    simp
  · decide

/-- Witness for C8: a concrete title-less entry scores exactly as the same
entry with an empty title. -/
theorem titleless_entry_compared_as_empty_witness :
    passScore eqRatio eqRatio "T" none ⟨some "s", none, some 1999, none, none⟩
      = passScore eqRatio eqRatio "T" none ⟨some "s", some "", some 1999, none, none⟩ :=
  titleless_entry_compared_as_empty.1 eqRatio eqRatio "T" none
    ⟨some "s", none, some 1999, none, none⟩ rfl

/-! The batch resolver: the processed list is the input list enriched in
place, and the unmatched list collects exactly the untouched items. -/

theorem matchGo_spec (fr tsr : String → String → ℚ) (now : String) (search : SearchFn)
    (overrides : Dict OverrideEntry) (letterboxd_films : List Film) :
    ∀ (movies : List Movie) (cache : Dict CacheEntry),
      ∃ outs : List (Movie × Option CacheEntry),
        outs.map Prod.fst = movies ∧
        (matchGo fr tsr now search overrides letterboxd_films movies cache).1
          = outs.map (fun p => match p.2 with | some e => enrichMovie p.1 e | none => p.1) ∧
        (matchGo fr tsr now search overrides letterboxd_films movies cache).2.1
          = (outs.filter (fun p => p.2.isNone)).map Prod.fst := by
  intro movies
  induction movies with
  | nil =>
    intro cache
    exact ⟨[], rfl, rfl, rfl⟩
  | cons movie rest ih =>
    intro cache
    cases hm : get_match_for_folder fr tsr now (movie.folder.getD "") (movie.title.getD "")
        movie.year cache overrides letterboxd_films movie.imdb_id (some search) with
    | some m =>
      obtain ⟨outs, ho1, ho2, ho3⟩ := ih (dset cache (movie.folder.getD "") m)
      refine ⟨(movie, some m) :: outs, ?_, ?_, ?_⟩
      · simp [ho1]
      · have hstep : (matchGo fr tsr now search overrides letterboxd_films
            (movie :: rest) cache).1
            = enrichMovie movie m :: (matchGo fr tsr now search overrides letterboxd_films
                rest (dset cache (movie.folder.getD "") m)).1 := by
          simp only [matchGo, hm]
        rw [hstep, ho2]
        rfl
      · have hstep : (matchGo fr tsr now search overrides letterboxd_films
            (movie :: rest) cache).2.1
            = (matchGo fr tsr now search overrides letterboxd_films
                rest (dset cache (movie.folder.getD "") m)).2.1 := by
          simp only [matchGo, hm]
        rw [hstep, ho3]
        rfl
    | none =>
      obtain ⟨outs, ho1, ho2, ho3⟩ := ih cache
      refine ⟨(movie, none) :: outs, ?_, ?_, ?_⟩
      · simp [ho1]
      · have hstep : (matchGo fr tsr now search overrides letterboxd_films
            (movie :: rest) cache).1
            = movie :: (matchGo fr tsr now search overrides letterboxd_films
                rest cache).1 := by
          simp only [matchGo, hm]
        rw [hstep, ho2]
        rfl
      · have hstep : (matchGo fr tsr now search overrides letterboxd_films
            (movie :: rest) cache).2.1
            = movie :: (matchGo fr tsr now search overrides letterboxd_films
                rest cache).2.1 := by
          simp only [matchGo, hm]
        rw [hstep, ho3]
        rfl

theorem match_local_films_pair (fr tsr : String → String → ℚ) (now : String)
    (search : SearchFn) (local_movies : List Movie) (letterboxd_films : List Film)
    (loadedCache : Dict CacheEntry) (overrides : Dict OverrideEntry)
    (force_rematch : Bool) :
    match_local_films fr tsr now search local_movies letterboxd_films loadedCache
        overrides force_rematch
      = ((matchGo fr tsr now search overrides letterboxd_films local_movies
            (if force_rematch then [] else loadedCache)).1,
         (matchGo fr tsr now search overrides letterboxd_films local_movies
            (if force_rematch then [] else loadedCache)).2.1) := rfl

/-- C9: `match_local_films` returns the input list itself as its first
component, each element either untouched or enriched with the identity
fields of its match, and the unmatched list collects exactly the elements
whose resolution failed, unmodified — so every unmatched movie appears in
both returned lists and in the input. -/
theorem match_local_films_spec
    (fr tsr : String → String → ℚ) (now : String) (search : SearchFn)
    (local_movies : List Movie) (letterboxd_films : List Film)
    (loadedCache : Dict CacheEntry) (overrides : Dict OverrideEntry)
    (force_rematch : Bool) :
    ∃ outs : List (Movie × Option CacheEntry),
      outs.map Prod.fst = local_movies ∧
      (match_local_films fr tsr now search local_movies letterboxd_films loadedCache
          overrides force_rematch).1
        = outs.map (fun p => match p.2 with | some e => enrichMovie p.1 e | none => p.1) ∧
      (match_local_films fr tsr now search local_movies letterboxd_films loadedCache
          overrides force_rematch).2
        = (outs.filter (fun p => p.2.isNone)).map Prod.fst ∧
      (∀ m ∈ (match_local_films fr tsr now search local_movies letterboxd_films loadedCache
          overrides force_rematch).2,
        m ∈ (match_local_films fr tsr now search local_movies letterboxd_films loadedCache
          overrides force_rematch).1 ∧ m ∈ local_movies) := by
  obtain ⟨outs, h1, h2, h3⟩ := matchGo_spec fr tsr now search overrides letterboxd_films
    local_movies (if force_rematch then [] else loadedCache)
  refine ⟨outs, h1, ?_, ?_, ?_⟩
  · rw [match_local_films_pair]
    exact h2
  · rw [match_local_films_pair]
    exact h3
  · intro m hm
    rw [match_local_films_pair] at hm
    replace hm : m ∈ (outs.filter (fun p => p.2.isNone)).map Prod.fst := by
      rw [← h3]
      exact hm
    obtain ⟨p, hpf, hpm⟩ := List.mem_map.mp hm
    have hpmem : p ∈ outs := (List.mem_filter.mp hpf).1
    have hpnone : p.2 = none := by
      have := (List.mem_filter.mp hpf).2
      simpa [Option.isNone_iff_eq_none] using this
    constructor
    · rw [match_local_films_pair, h2]
      refine List.mem_map.mpr ⟨p, hpmem, ?_⟩
      rw [hpnone]
      exact hpm
    · rw [← h1]
      exact List.mem_map.mpr ⟨p, hpmem, hpm⟩

/-- Witness for C9: the structure theorem instantiated at a concrete
one-movie batch. -/
theorem match_local_films_spec_witness :
    ∃ outs : List (Movie × Option CacheEntry),
      outs.map Prod.fst = [Movie.mk (some "f") (some "T") none none none none none none] ∧
      (match_local_films eqRatio eqRatio "t0" (fun _ _ => none)
          [Movie.mk (some "f") (some "T") none none none none none none] [] [] [] false).1
        = outs.map (fun p => match p.2 with | some e => enrichMovie p.1 e | none => p.1) ∧
      (match_local_films eqRatio eqRatio "t0" (fun _ _ => none)
          [Movie.mk (some "f") (some "T") none none none none none none] [] [] [] false).2
        = (outs.filter (fun p => p.2.isNone)).map Prod.fst ∧
      (∀ m ∈ (match_local_films eqRatio eqRatio "t0" (fun _ _ => none)
          [Movie.mk (some "f") (some "T") none none none none none none] [] [] [] false).2,
        m ∈ (match_local_films eqRatio eqRatio "t0" (fun _ _ => none)
            [Movie.mk (some "f") (some "T") none none none none none none] [] [] [] false).1 ∧
        m ∈ [Movie.mk (some "f") (some "T") none none none none none none]) :=
  match_local_films_spec eqRatio eqRatio "t0" (fun _ _ => none)
    [Movie.mk (some "f") (some "T") none none none none none none] [] [] [] false

end FilmMatcher
